import Mathlib

/-!
Verification development for the SecDashboard ingestion-and-classification
pipeline (Python backend).  Each Python function relevant to the checked
claims is shallowly embedded as an executable Lean definition; machine
strings are `String`/`List Char`, Python floats are exact rationals
(`Rat`; the floats handled here are only compared/truncated, operations
that are exact on the rationals the floats denote), Python ints are `Int`,
and fallible lookups are `Option`.
-/

namespace SecDash

/-! ### Character and string primitives (Python string operations) -/

/-- Lowercase every character (Python `str.lower` restricted to ASCII,
which is the alphabet of every string the embedded code compares). -/
def lowerL (l : List Char) : List Char := l.map Char.toLower

/-- Test whether the first list is a leading segment of the second
(Python `str.startswith`). -/
def startsWithList : List Char → List Char → Bool
  | [], _ => true
  | _ :: _, [] => false
  | a :: as, b :: bs => a = b && startsWithList as bs

/-- Test whether the first list is a trailing segment of the second
(Python `str.endswith`). -/
def endsWithList (pat l : List Char) : Bool :=
  startsWithList pat.reverse l.reverse

/-- Test whether `pat` occurs contiguously anywhere in the second list
(Python `needle in haystack`). -/
def strHas (pat : List Char) : List Char → Bool
  | [] => startsWithList pat []
  | c :: rest => startsWithList pat (c :: rest) || strHas pat rest

/-- Characters that Python `str.strip()` removes and `\s` matches (ASCII). -/
def isPyWs (c : Char) : Bool :=
  c = ' ' || c = '\t' || c = '\n' || c = '\r' || c = '\x0b' || c = '\x0c'

/-- Python `str.strip()`: drop leading and trailing whitespace. -/
def stripL (l : List Char) : List Char :=
  ((l.dropWhile isPyWs).reverse.dropWhile isPyWs).reverse

/-- Python `s.split('/')[0]`: the segment before the first `/`. -/
def beforeSlash (l : List Char) : List Char :=
  l.takeWhile (fun c => c ≠ '/')

/-- Python `link.rsplit("/", 1)[-1]`: the segment after the last `/`. -/
def afterLastSlash (l : List Char) : List Char :=
  (l.reverse.takeWhile (fun c => c ≠ '/')).reverse

/-! ### Form 8-K parser (`app/parsers/form_8k.py`)

The HTML-to-text extraction done by BeautifulSoup is not part of the
claims; the embedding takes the extracted text.  The regex
`Item\s+(\d+\.\d+)` (IGNORECASE) is embedded as an explicit scanner with
Python `re.findall` semantics: leftmost matches, scanning resumes after
each match. -/

/-- Map of 8-K item codes to event descriptions (`ITEM_MAP`). -/
def ITEM_MAP : List (String × String) :=
  [("1.01", "Entry into a Material Definitive Agreement"),
   ("1.02", "Termination of a Material Definitive Agreement"),
   ("1.03", "Bankruptcy or Receivership"),
   ("2.01", "Completion of Acquisition or Disposition of Assets"),
   ("2.02", "Results of Operations and Financial Condition"),
   ("2.03", "Creation of a Direct Financial Obligation"),
   ("2.04", "Triggering Events That Accelerate or Increase a Direct Financial Obligation"),
   ("2.05", "Costs Associated with Exit or Disposal Activities"),
   ("2.06", "Material Impairments"),
   ("3.01", "Notice of Delisting or Failure to Satisfy Listing Standard"),
   ("3.02", "Unregistered Sales of Equity Securities"),
   ("3.03", "Material Modification to Rights of Security Holders"),
   ("4.01", "Changes in Registrant's Certifying Accountant"),
   ("4.02", "Non-Reliance on Previously Issued Financial Statements"),
   ("5.01", "Changes in Control of Registrant"),
   ("5.02", "Departure of Directors or Certain Officers; Appointment of Certain Officers"),
   ("5.03", "Amendments to Articles of Incorporation or Bylaws"),
   ("5.04", "Temporary Suspension of Trading Under Employee Benefit Plans"),
   ("5.05", "Amendments to the Code of Ethics"),
   ("5.06", "Change in Shell Company Status"),
   ("5.07", "Submission of Matters to a Vote of Security Holders"),
   ("5.08", "Shareholder Nominations"),
   ("7.01", "Regulation FD Disclosure"),
   ("8.01", "Other Events"),
   ("9.01", "Financial Statements and Exhibits")]

/-- Item codes flagged bullish (`BULLISH_ITEMS`). -/
def BULLISH_ITEMS : List String := ["1.01", "2.01", "2.02", "5.03", "5.07", "5.08"]

/-- Item codes flagged bearish (`BEARISH_ITEMS`). -/
def BEARISH_ITEMS : List String :=
  ["1.02", "1.03", "2.04", "2.05", "2.06", "3.01", "3.03", "4.02", "5.02", "5.06"]

/-- Case-insensitive character comparison (regex IGNORECASE). -/
def lcEq (a b : Char) : Bool := a.toLower = b.toLower

/-- Attempt to match `Item\s+(\d+\.\d+)` at the head of the list.  On
success return the captured `\d+\.\d+` group and the remainder of the
input after the whole match. -/
def matchItemAt (l : List Char) : Option (String × List Char) :=
  match l with
  | c1 :: c2 :: c3 :: c4 :: rest =>
    if lcEq c1 'i' && lcEq c2 't' && lcEq c3 'e' && lcEq c4 'm' then
      if (rest.takeWhile isPyWs).isEmpty then none
      else
        let r1 := rest.dropWhile isPyWs
        let d1 := r1.takeWhile Char.isDigit
        let r2 := r1.dropWhile Char.isDigit
        if d1.isEmpty then none
        else
          match r2 with
          | '.' :: r3 =>
            let d2 := r3.takeWhile Char.isDigit
            let r4 := r3.dropWhile Char.isDigit
            if d2.isEmpty then none
            else some (⟨d1 ++ '.' :: d2⟩, r4)
          | _ => none
    else none
  | _ => none

/-- Fuelled scanner for `re.findall(_ITEM_RE, text)`: try a match at each
position, resume after a match, advance one character otherwise.  The
fuel is consumed once per step and `l.length` fuel always suffices. -/
def scanItemsAux : Nat → List Char → List String
  | 0, _ => []
  | _, [] => []
  | fuel + 1, c :: rest =>
    match matchItemAt (c :: rest) with
    | some (code, after) => code :: scanItemsAux fuel after
    | none => scanItemsAux fuel rest

/-- All captures of `Item\s+(\d+\.\d+)` in the text, in match order. -/
def scanItems (l : List Char) : List String := scanItemsAux l.length l

/-- Byte-wise (code-point) comparison of character lists, the order
Python uses to sort `str` values. -/
def charsLe : List Char → List Char → Bool
  | [], _ => true
  | _ :: _, [] => false
  | a :: as, b :: bs =>
    if a.val.toNat < b.val.toNat then true
    else if b.val.toNat < a.val.toNat then false
    else charsLe as bs

/-- Python `str` ordering as a proposition. -/
def strLe (a b : String) : Prop := charsLe a.toList b.toList = true

instance : DecidableRel strLe := fun a b => by
  unfold strLe
  infer_instance

/-- Structured fields produced by `parse_8k`. -/
structure Parse8kData where
  items : List String
  item_descriptions : List (String × String)
  has_bullish_items : Bool
  has_bearish_items : Bool
deriving DecidableEq

/-- Embedding of `parse_8k` from the extracted text onward:
`items_found = list(set(findall)); items_found.sort()`, the description
table lookup, and the bullish/bearish intersection flags. -/
def parse_8k (text : List Char) : Parse8kData :=
  let items_found := List.insertionSort strLe (scanItems text).dedup
  { items := items_found
    item_descriptions :=
      items_found.map (fun code => (code, ((ITEM_MAP.find? (fun p => p.1 == code)).map Prod.snd).getD "Unknown"))
    has_bullish_items := items_found.any (fun c => BULLISH_ITEMS.contains c)
    has_bearish_items := items_found.any (fun c => BEARISH_ITEMS.contains c) }

/-! ### Heuristic classifier (`app/services/alpha_engine.py`)

`pre_classify(segment, parsed_data)` reads at most the five keys below,
each with the type the repository's parsers give it (`items` from the
8-K parser, `form_subtype`/`strategy`/`ownership_pct` from the 13D/13G
parser, `sentiment_score` from the 10-Q parser); a missing key is `none`.
Python float percentages are exact rationals here. -/

/-- Dictionary of parsed fields as consumed by `pre_classify`. -/
structure ParsedData where
  items : Option (List String) := none
  form_subtype : Option String := none
  strategy : Option String := none
  ownership_pct : Option Rat := none
  sentiment_score : Option Int := none

/-- Embedding of `pre_classify`. `"activist" in strategy` is Python
substring containment; `if ownership and ownership > 5` tests Python
truthiness (non-`None` and non-zero) before the comparison. -/
def pre_classify (segment : String) (parsed_data : ParsedData) : Int :=
  if segment = "catalyst" then
    let items := parsed_data.items.getD []
    if items.any (fun c => BEARISH_ITEMS.contains c) then -70
    else if items.any (fun c => BULLISH_ITEMS.contains c) then 70
    else 0
  else if segment = "whale" then
    let form_subtype := parsed_data.form_subtype.getD ""
    let strategy := parsed_data.strategy.getD ""
    if form_subtype = "13D" && strHas "activist".toList strategy.toList then 80
    else if form_subtype = "13D" then 60
    else
      match parsed_data.ownership_pct with
      | some ownership => if ownership ≠ 0 ∧ 5 < ownership then 40 else 0
      | none => 0
  else if segment = "pulse" then
    let raw := parsed_data.sentiment_score.getD 0
    max (-100) (min 100 (raw * 20))
  else 0

/-- Embedding of the strategy-label derivation of `parse_13d_13g`
(lines 55-62): activist when 13D with activism language, else passive
when passive language is present, else potentially activist for a 13D,
else passive. -/
def strategyLabel (is_13d has_activism has_passive : Bool) : String :=
  if is_13d && has_activism then "activist"
  else if has_passive then "passive"
  else if is_13d then "potentially activist"
  else "passive"

/-! ### Feed entry normalization (`app/services/feed_poller.py`)

A normalized entry is the dictionary built by `_parse_entry`.  The two
regular expressions of that function (`_TITLE_RE` over the entry title
and `accession-number=([\d-]+)` over the entry id) are embedded by their
match results carried on the raw entry: `titleMatch` holds the stripped
groups 1-3 of `_TITLE_RE` (form, company name, 10-digit cik) or `none`
when the title does not match, and `accessionFromId` holds the capture
of the accession sub-pattern or `none` when it is absent. -/

/-- Normalized filing entry (the dictionary returned by `_parse_entry`). -/
structure Entry where
  accession_number : String
  form_type : String
  segment : String
  company_name : String
  cik : String
  ticker : String
  filing_url : String
  filed_at : String
deriving DecidableEq

/-- Static form-type to segment table (`FORM_TO_SEGMENT`). -/
def FORM_TO_SEGMENT : List (String × String) :=
  [("8-K", "catalyst"), ("8-K/A", "catalyst"),
   ("SC 13D", "whale"), ("SC 13D/A", "whale"),
   ("SC 13G", "whale"), ("SC 13G/A", "whale"),
   ("SCHEDULE 13D", "whale"), ("SCHEDULE 13D/A", "whale"),
   ("SCHEDULE 13G", "whale"), ("SCHEDULE 13G/A", "whale"),
   ("13D", "whale"), ("13D/A", "whale"),
   ("13G", "whale"), ("13G/A", "whale"),
   ("10-Q", "pulse"), ("10-Q/A", "pulse"),
   ("10-K", "pulse"), ("10-K/A", "pulse")]

/-- First-match association lookup (Python `dict.get` on a literal dict
whose keys are distinct). -/
def assocGet (table : List (String × String)) (k : String) : Option String :=
  (table.find? (fun p => p.1 == k)).map Prod.snd

/-- Raw Atom feed entry as seen by `_parse_entry`, with the two regex
matches replaced by their results (see the section comment). -/
structure RawEntry where
  tagTerm : Option String := none
  titleMatch : Option (String × String × String) := none
  accessionFromId : Option String := none
  entryId : String := ""
  link : String := ""
  updated : String := ""

/-- Embedding of `_parse_entry(entry, _cik_ticker=None)`.  The second
parameter shadows the module-level table of the same name; `_cik_ticker
= _cik_ticker or {}` replaces a missing (or empty, hence falsy) argument
by the empty table.  Returns `none` where the Python function returns
`None` (unmatched title, or form type outside the segment table). -/
def parse_entry (entry : RawEntry) (cikTickerArg : Option (List (String × String)) := none) :
    Option Entry :=
  let table := cikTickerArg.getD []
  match entry.titleMatch with
  | none => none
  | some (titleForm, company_name, cik) =>
    let form_type :=
      match entry.tagTerm with
      | some t => if t = "" then titleForm else t
      | none => titleForm
    let accession := entry.accessionFromId.getD entry.entryId
    let segment? :=
      match assocGet FORM_TO_SEGMENT form_type with
      | some s => some s
      | none => assocGet FORM_TO_SEGMENT ⟨beforeSlash form_type.toList⟩
    match segment? with
    | none => none
    | some segment =>
      some { accession_number := accession
             form_type := form_type
             segment := segment
             company_name := company_name
             cik := cik
             ticker := (assocGet table cik).getD "..."
             filing_url := entry.link
             filed_at := entry.updated }

/-- Normalization step of `_poll_once`: each raw entry goes through
`_parse_entry(entry)` — with no table argument — and `None` results are
dropped.  The module-level ticker table (first parameter) is never
consulted by this call. -/
def poll_once_normalize (globalCikTicker : List (String × String))
    (entries : List RawEntry) : List Entry :=
  let _ := globalCikTicker
  entries.filterMap (fun e => parse_entry e none)

/-! ### Dedup ledger (`_dedup` of `app/services/feed_poller.py`)

The `seen_filings` table is the ledger, embedded as the list of its
accession numbers in insertion order; `SELECT ... WHERE IN` is
membership and the inserts append.  The in-batch dict
`seen_in_batch[acc] = e` guarded by `if acc not in seen_in_batch` keeps,
for each accession number, the first entry bearing it, in first-seen
order (Python dicts preserve insertion order). -/

/-- In-batch dedup loop of `_dedup`, with the accumulator of accession
numbers already inserted into `seen_in_batch`. -/
def uniqueByAccAux (seen : List String) : List Entry → List Entry
  | [] => []
  | e :: rest =>
    if e.accession_number ∈ seen then uniqueByAccAux seen rest
    else e :: uniqueByAccAux (e.accession_number :: seen) rest

/-- Embedding of `_dedup`: returns the new entries together with the
ledger after the inserts are committed. -/
def dedupStep (ledger : List String) (entries : List Entry) :
    List Entry × List String :=
  if entries.isEmpty then ([], ledger)
  else
    let unique_entries := uniqueByAccAux [] entries
    let new_entries := unique_entries.filter (fun e => !(ledger.contains e.accession_number))
    (new_entries, ledger ++ new_entries.map (·.accession_number))

/-! ### Document fetcher (`app/services/filing_fetcher.py`)

`_get_doc_url_from_index` extracts candidate document links from the
index page, then picks one; the claims concern the pick, embedded over
the candidate list `doc_links`. -/

/-- Does the filename start with `R` followed by a digit (the exhibit
viewer artifacts `R1.htm`, `R2.htm`, ...)?  Python:
`filename.startswith("R") and filename[1:2].isdigit()`. -/
def rViewerName (filename : List Char) : Bool :=
  match filename with
  | 'R' :: c :: _ => c.isDigit
  | _ => false

/-- Links whose path holds an XSLT segment: `"/xsl" in link.lower()`. -/
def hasXslSegment (link : String) : Bool :=
  strHas "/xsl".toList (lowerL link.toList)

/-- Predicate of the first selection loop: not an exhibit-viewer
filename, no XSLT path segment, and the filename ends in
`.htm`/`.html`. -/
def htmCandidate (link : String) : Bool :=
  let filename := afterLastSlash link.toList
  !(rViewerName filename) && !(hasXslSegment link) &&
    (endsWithList ".htm".toList (lowerL filename) || endsWithList ".html".toList (lowerL filename))

/-- Embedding of the link-selection portion of `_get_doc_url_from_index`
(lines 80-98): first `.htm/.html` link passing the artifact filters,
else the first link without an XSLT segment, else the first link. -/
def pickBest (doc_links : List String) : Option String :=
  match doc_links.find? htmCandidate with
  | some best => some best
  | none =>
    match doc_links.find? (fun link => !(hasXslSegment link)) with
    | some best => some best
    | none => doc_links.head?

/-- Selection policy as the specification words it: first `.htm/.html`
link that is not a rendered-view artifact; if none survives, the first
surviving `.xml` link; if still nothing, the first candidate link,
unfiltered. -/
def pickBestSpec (doc_links : List String) : Option String :=
  let artifact := fun (link : String) =>
    rViewerName (afterLastSlash link.toList) || hasXslSegment link
  let htmLink := fun (link : String) =>
    endsWithList ".htm".toList (lowerL link.toList) ||
      endsWithList ".html".toList (lowerL link.toList)
  let xmlLink := fun (link : String) => endsWithList ".xml".toList (lowerL link.toList)
  match doc_links.find? (fun l => htmLink l && !(artifact l)) with
  | some best => some best
  | none =>
    match doc_links.find? (fun l => xmlLink l && !(artifact l)) with
    | some best => some best
    | none => doc_links.head?

/-- The parser variants `fetch_filing_document` dispatches to. -/
inductive ParserKind where
  | p8k
  | pForm4
  | pS1S3
  | p13d13g
  | p10q
  | pGeneric
deriving DecidableEq

/-- Parser dispatch of `fetch_filing_document` (lines 144-162):
`base_form = form_type.split("/")[0].strip()` routed through the
if/elif chain. -/
def routeParser (form_type : String) : ParserKind :=
  let base_form : String := ⟨stripL (beforeSlash form_type.toList)⟩
  if base_form = "8-K" then .p8k
  else if base_form = "4" then .pForm4
  else if base_form ∈ ["S-1", "S-3", "424B2", "424B3", "424B4", "424B5"] then .pS1S3
  else if base_form ∈ ["SC 13D", "SC 13G", "13D", "13G", "SCHEDULE 13G", "SCHEDULE 13D"]
    then .p13d13g
  else if base_form = "10-Q" then .p10q
  else .pGeneric

/-! ### Generative classifier adapter (`app/services/ai_processor.py`)

Values decoded from a JSON reply (`json.loads`) are embedded as `PVal`;
a decoded object is an association list with distinct keys in insertion
order.  Python floats are the exact rationals they denote, which `int()`
truncates toward zero. -/

/-- A Python value as produced by `json.loads`. -/
inductive PVal where
  | vint : Int → PVal
  | vfloat : Rat → PVal
  | vstr : String → PVal
  | vbool : Bool → PVal
  | vnull : PVal
  | vlist : List PVal → PVal
  | vdict : List (String × PVal) → PVal

/-- A decoded JSON object / Python dict. -/
abbrev PyDict : Type := List (String × PVal)

/-- Python `d.get(k)`: value of the first (only) binding of `k`. -/
def pyGet (d : PyDict) (k : String) : Option PVal :=
  (List.find? (fun p => p.1 == k) d).map Prod.snd

/-- Python `d[k] = v`: replace the binding in place, else append. -/
def pySetKey (d : PyDict) (k : String) (v : PVal) : PyDict :=
  if List.any d (fun p => p.1 == k) then
    List.map (fun p => if p.1 == k then (k, v) else p) d
  else d ++ [(k, v)]

/-- Python `d.pop(k, None)`: drop the binding of `k`. -/
def pyPop (d : PyDict) (k : String) : PyDict :=
  List.filter (fun p => p.1 != k) d

/-- The legacy label mapping of `_validate_impact`. -/
def labelMapping : List (String × Int) :=
  [("bullish", 60), ("bearish", -60), ("neutral", 0)]

/-- Python `str.lower` on a string. -/
def lowerStr (s : String) : String := ⟨lowerL s.toList⟩

/-- Python `int()` on an exact rational: truncation toward zero. -/
def ratTruncToInt (q : Rat) : Int := Int.tdiv q.num (q.den : Int)

/-- Score of a legacy string label:
`{"bullish": 60, "bearish": -60, "neutral": 0}.get(raw.lower(), 0)`. -/
def labelScore (s : String) : Int :=
  ((labelMapping.find? (fun p => p.1 == lowerStr s)).map Prod.snd).getD 0

/-- The raw impact value `_validate_impact` starts from:
`parsed.get("impact", parsed.get("signal", 0))`. -/
def rawImpact (parsed : PyDict) : PVal :=
  (pyGet parsed "impact").getD ((pyGet parsed "signal").getD (.vint 0))

/-- Embedding of `_validate_impact`: map a legacy string label through
`labelMapping` (unknown labels to 0), coerce `int(raw)` — exact on ints,
truncation on floats, 1/0 on bools, `TypeError` hence 0 on `None`, lists
and dicts (a string can no longer occur there) — clamp to [-100, 100],
store the result under `"impact"` and drop `"signal"`. -/
def validate_impact (parsed : PyDict) : PyDict :=
  let raw := rawImpact parsed
  let raw : PVal :=
    match raw with
    | .vstr s => .vint (labelScore s)
    | r => r
  let score : Int :=
    match raw with
    | .vint n => n
    | .vfloat q => ratTruncToInt q
    | .vbool b => if b then 1 else 0
    | _ => 0
  pyPop (pySetKey parsed "impact" (.vint (max (-100) (min 100 score)))) "signal"

/-- Python `text[:300]` on a string. -/
def strTake (n : Nat) (s : String) : String := ⟨s.toList.take n⟩

/-- Python `str.strip()` on a string. -/
def stripStr (s : String) : String := ⟨stripL s.toList⟩

/-- The fixed could-not-parse reason of `_parse_response`. -/
def couldNotParseReason : String := "Could not parse structured SLM response"

/-- Embedding of `_parse_response`.  Its three JSON-extraction attempts
— `json.loads` on the stripped reply, the fenced code-block regex
followed by `json.loads` on the captured group, and the
`"summary"`-anchor regex followed by `json.loads` on the match — are
library calls abstracted as the three function arguments, each returning
`none` exactly when its attempt fails; the control flow around them and
the synthetic fallback dictionary are embedded literally. -/
def parse_response (attemptDirect attemptFenced attemptAnchor : String → Option PyDict)
    (text : String) : PyDict :=
  let text := stripStr text
  match attemptDirect text with
  | some d => d
  | none =>
    match attemptFenced text with
    | some d => d
    | none =>
      match attemptAnchor text with
      | some d => d
      | none =>
        [("summary", .vstr (strTake 300 text)),
         ("impact", .vint 0),
         ("reasons", .vlist [.vstr couldNotParseReason])]

/-! ### Per-filing processing (`_process_filing` and `polling_loop`)

The observable effects of one poll cycle are embedded as explicit state:
the dedup ledger, the accession numbers of rows in the `filings` table,
and the broadcast events in emission order.  Network fetching is a
function from entry to fetched text (`fetch_filing_document` returns the
empty text both when no document URL resolves and when the download
fails); classification and persistence details beyond the row's
existence are irrelevant to the claims and the row is recorded by its
accession number. -/

/-- Observable pipeline state. -/
structure PipeState where
  seenLedger : List String
  filingRows : List String
  broadcasts : List (String × String)
deriving DecidableEq

/-- Embedding of `_process_filing` for an entry whose fetch produced
`fetchedText`: skip (unchanged state) when a row for the accession
already exists; return before any broadcast or insert when the text is
empty; otherwise broadcast `filing_processing`, insert the row, and
broadcast `new_filing`. -/
def process_filing (st : PipeState) (e : Entry) (fetchedText : String) : PipeState :=
  if st.filingRows.contains e.accession_number then st
  else if fetchedText = "" then st
  else
    { st with
      filingRows := st.filingRows ++ [e.accession_number]
      broadcasts := st.broadcasts ++
        [("filing_processing", e.accession_number), ("new_filing", e.accession_number)] }

/-- One iteration of `polling_loop`: dedup the batch against the ledger,
then process each new entry (the bounded concurrency of the source is
immaterial to the recorded effects, which are per-entry). -/
def runCycle (st : PipeState) (batch : List Entry) (fetchOf : Entry → String) : PipeState :=
  let (new_entries, ledger) := dedupStep st.seenLedger batch
  new_entries.foldl (fun s e => process_filing s e (fetchOf e))
    { st with seenLedger := ledger }

/-- A sample normalized entry, varying only in accession number and
company name. -/
def mkEntry (acc name : String) : Entry :=
  { accession_number := acc, form_type := "8-K", segment := "catalyst",
    company_name := name, cik := "0000000000", ticker := "...",
    filing_url := "", filed_at := "" }

/-!  ## Supporting lemmas -/

/-- The byte-wise string order is total. -/
theorem charsLe_total : ∀ a b : List Char, charsLe a b = true ∨ charsLe b a = true := by
  intro a
  induction a with
  | nil => intro b; left; rfl
  | cons x xs ih =>
    intro b
    cases b with
    | nil => right; rfl
    | cons y ys =>
      simp only [charsLe]
      by_cases h1 : x.val.toNat < y.val.toNat
      · left; simp [h1]
      · by_cases h2 : y.val.toNat < x.val.toNat
        · right; simp [h2]
        · simp only [if_neg h1, if_neg h2]
          exact ih ys

/-- The byte-wise string order is transitive. -/
theorem charsLe_trans :
    ∀ a b c : List Char, charsLe a b = true → charsLe b c = true →
      charsLe a c = true := by
  intro a
  induction a with
  | nil => intro b c _ _; rfl
  | cons x xs ih =>
    intro b c hab hbc
    cases b with
    | nil => simp [charsLe] at hab
    | cons y ys =>
      cases c with
      | nil => simp [charsLe] at hbc
      | cons z zs =>
        simp only [charsLe] at hab hbc ⊢
        by_cases h1 : x.val.toNat < y.val.toNat
        · by_cases h3 : y.val.toNat < z.val.toNat
          · simp [show x.val.toNat < z.val.toNat from by omega]
          · by_cases h4 : z.val.toNat < y.val.toNat
            · simp [h3, h4] at hbc
            · simp [show x.val.toNat < z.val.toNat from by omega]
        · by_cases h2 : y.val.toNat < x.val.toNat
          · simp [h1, h2] at hab
          · simp only [if_neg h1, if_neg h2] at hab
            by_cases h3 : y.val.toNat < z.val.toNat
            · simp [show x.val.toNat < z.val.toNat from by omega]
            · by_cases h4 : z.val.toNat < y.val.toNat
              · simp [h3, h4] at hbc
              · simp only [if_neg h3, if_neg h4] at hbc
                have hxz1 : ¬ x.val.toNat < z.val.toNat := by omega
                have hxz2 : ¬ z.val.toNat < x.val.toNat := by omega
                simp only [if_neg hxz1, if_neg hxz2]
                exact ih ys zs hab hbc

instance : IsTotal String strLe :=
  ⟨fun a b => charsLe_total a.toList b.toList⟩

instance : IsTrans String strLe :=
  ⟨fun a b c => charsLe_trans a.toList b.toList c.toList⟩

/-- Entries produced by the in-batch dedup loop: each carries an
accession number outside the accumulator and is the first entry of the
batch bearing it. -/
theorem uniqueByAccAux_first (seen : List String) (l : List Entry) :
    ∀ e ∈ uniqueByAccAux seen l,
      e.accession_number ∉ seen ∧
      l.find? (fun x => x.accession_number == e.accession_number) = some e := by
  induction l generalizing seen with
  | nil => intro e he; simp [uniqueByAccAux] at he
  | cons p rest ih =>
    intro e he
    by_cases hp : p.accession_number ∈ seen
    · rw [uniqueByAccAux, if_pos hp] at he
      obtain ⟨hnot, hfind⟩ := ih seen e he
      have hne : ¬ (p.accession_number == e.accession_number) = true := by
        simp only [beq_iff_eq]
        intro hacc
        exact hnot (hacc ▸ hp)
      have hx : List.find? (fun x => x.accession_number == e.accession_number) (p :: rest) =
          List.find? (fun x => x.accession_number == e.accession_number) rest :=
        List.find?_cons_of_neg _ hne
      rw [hx]
      exact ⟨hnot, hfind⟩
    · rw [uniqueByAccAux, if_neg hp] at he
      rcases List.mem_cons.mp he with rfl | he'
      · refine ⟨hp, ?_⟩
        have hx : List.find? (fun x => x.accession_number == e.accession_number) (e :: rest) =
            some e :=
          List.find?_cons_of_pos _ (by simp)
        rw [hx]
      · obtain ⟨hnot, hfind⟩ := ih (p.accession_number :: seen) e he'
        have hne : ¬ (p.accession_number == e.accession_number) = true := by
          simp only [beq_iff_eq]
          intro h
          exact hnot (h ▸ List.mem_cons_self _ _)
        have hnot' : e.accession_number ∉ seen := fun h =>
          hnot (List.mem_cons_of_mem _ h)
        have hx : List.find? (fun x => x.accession_number == e.accession_number) (p :: rest) =
            List.find? (fun x => x.accession_number == e.accession_number) rest :=
          List.find?_cons_of_neg _ hne
        rw [hx]
        exact ⟨hnot', hfind⟩

/-- Accession numbers surviving the in-batch dedup loop are exactly the
batch's accession numbers outside the accumulator. -/
theorem uniqueByAccAux_mem_acc (seen : List String) (l : List Entry) (a : String) :
    a ∈ (uniqueByAccAux seen l).map (·.accession_number) ↔
      a ∈ l.map (·.accession_number) ∧ a ∉ seen := by
  induction l generalizing seen with
  | nil => simp [uniqueByAccAux]
  | cons p rest ih =>
    by_cases hp : p.accession_number ∈ seen
    · rw [uniqueByAccAux, if_pos hp, ih, List.map_cons]
      constructor
      · rintro ⟨h1, h2⟩
        exact ⟨List.mem_cons_of_mem _ h1, h2⟩
      · rintro ⟨h1, h2⟩
        rcases List.mem_cons.mp h1 with rfl | h1'
        · exact absurd hp h2
        · exact ⟨h1', h2⟩
    · rw [uniqueByAccAux, if_neg hp, List.map_cons, List.map_cons]
      constructor
      · intro h
        rcases List.mem_cons.mp h with rfl | h'
        · exact ⟨List.mem_cons_self _ _, hp⟩
        · obtain ⟨h1, h2⟩ := (ih _).mp h'
          have h2' : a ∉ seen := fun hh => h2 (List.mem_cons_of_mem _ hh)
          exact ⟨List.mem_cons_of_mem _ h1, h2'⟩
      · rintro ⟨h1, h2⟩
        rcases List.mem_cons.mp h1 with rfl | h1'
        · exact List.mem_cons_self _ _
        · by_cases ha : a = p.accession_number
          · rw [ha]
            exact List.mem_cons_self _ _
          · refine List.mem_cons_of_mem _ ((ih _).mpr ⟨h1', ?_⟩)
            intro hh
            rcases List.mem_cons.mp hh with h3 | h3
            · exact ha h3
            · exact h2 h3

/-- The accession numbers surviving the in-batch dedup loop are
pairwise distinct. -/
theorem uniqueByAccAux_nodup (seen : List String) (l : List Entry) :
    ((uniqueByAccAux seen l).map (·.accession_number)).Nodup := by
  induction l generalizing seen with
  | nil => simp [uniqueByAccAux]
  | cons p rest ih =>
    by_cases hp : p.accession_number ∈ seen
    · rw [uniqueByAccAux, if_pos hp]
      exact ih seen
    · rw [uniqueByAccAux, if_neg hp]
      simp only [List.map_cons, List.nodup_cons]
      refine ⟨?_, ih _⟩
      intro hmem
      exact ((uniqueByAccAux_mem_acc _ _ _).mp hmem).2 (List.mem_cons_self _ _)

/-- Characterization of the accession numbers returned by one `_dedup`
call: exactly the batch's accession numbers that are not in the ledger. -/
theorem dedupStep_mem_acc (ledger : List String) (entries : List Entry) (a : String) :
    a ∈ (dedupStep ledger entries).1.map (·.accession_number) ↔
      a ∈ entries.map (·.accession_number) ∧ a ∉ ledger := by
  unfold dedupStep
  by_cases hne : entries.isEmpty
  · rw [if_pos hne]
    rw [List.isEmpty_iff] at hne
    subst hne
    simp
  · rw [if_neg hne]
    constructor
    · intro h
      obtain ⟨e, he, rfl⟩ := List.mem_map.mp h
      obtain ⟨hu, hc⟩ := List.mem_filter.mp he
      have h1 := (uniqueByAccAux_mem_acc [] entries e.accession_number).mp
        (List.mem_map_of_mem _ hu)
      refine ⟨h1.1, ?_⟩
      simpa using hc
    · rintro ⟨h1, h2⟩
      have hu := (uniqueByAccAux_mem_acc [] entries a).mpr ⟨h1, by simp⟩
      obtain ⟨e, he, hea⟩ := List.mem_map.mp hu
      refine List.mem_map.mpr ⟨e, List.mem_filter.mpr ⟨he, ?_⟩, hea⟩
      simpa [hea] using h2

/-- The ledger after a `_dedup` call is the old ledger with the
returned accession numbers appended. -/
theorem dedupStep_ledger (ledger : List String) (entries : List Entry) :
    (dedupStep ledger entries).2 =
      ledger ++ (dedupStep ledger entries).1.map (·.accession_number) := by
  unfold dedupStep
  by_cases hne : entries.isEmpty
  · rw [if_pos hne]; simp
  · rw [if_neg hne]

/-- The first entry of the batch bearing a returned entry's accession
number is that entry itself. -/
theorem dedupStep_first (ledger : List String) (entries : List Entry) :
    ∀ e ∈ (dedupStep ledger entries).1,
      entries.find? (fun x => x.accession_number == e.accession_number) = some e := by
  intro e he
  unfold dedupStep at he
  by_cases hne : entries.isEmpty
  · rw [if_pos hne] at he
    simp at he
  · rw [if_neg hne] at he
    exact (uniqueByAccAux_first [] entries e (List.mem_filter.mp he).1).2

/-- A legacy label maps to one of the three fixed scores (unknown
labels to 0). -/
theorem labelScore_cases (s : String) :
    labelScore s = 60 ∨ labelScore s = -60 ∨ labelScore s = 0 := by
  unfold labelScore
  rcases h : List.find? (fun p => p.1 == lowerStr s) labelMapping with _ | p
  · right; right
    rw [h]
    rfl
  · have hp := List.mem_of_find?_eq_some h
    rw [h]
    simp only [labelMapping, List.mem_cons, List.mem_singleton] at hp
    rcases hp with rfl | rfl | rfl | hp
    · left; rfl
    · right; left; rfl
    · right; right; rfl
    · simp at hp

/-- Processing an entry whose fetch produced no text changes nothing. -/
theorem process_filing_empty (st : PipeState) (e : Entry) :
    process_filing st e "" = st := by
  unfold process_filing
  split_ifs with h1 h2
  · rfl
  · rfl
  · exact absurd rfl h2

/-- Folding the per-filing processor with empty fetches over any list
of entries changes nothing. -/
theorem foldl_process_empty (l : List Entry) (st : PipeState) :
    l.foldl (fun s e => process_filing s e "") st = st := by
  induction l generalizing st with
  | nil => rfl
  | cons p rest ih => rw [List.foldl_cons, process_filing_empty, ih]

/-- In a dictionary holding the key, the in-place update is found by a
subsequent lookup. -/
theorem find_setKey_any (k : String) (v : PVal) :
    ∀ d : PyDict, List.any d (fun p => p.1 == k) = true →
      List.find? (fun p => p.1 == k)
        (List.map (fun p => if p.1 == k then (k, v) else p) d) = some (k, v) := by
  intro d
  induction d with
  | nil => intro h; simp at h
  | cons p rest ih =>
    intro h
    rw [List.map_cons]
    by_cases hp : (p.1 == k) = true
    · rw [if_pos hp]
      have hx : List.find? (fun p => p.1 == k)
          ((k, v) :: List.map (fun p => if p.1 == k then (k, v) else p) rest) = some (k, v) :=
        List.find?_cons_of_pos _ (by simp)
      rw [hx]
    · rw [if_neg hp]
      have hx : List.find? (fun p => p.1 == k)
          (p :: List.map (fun p => if p.1 == k then (k, v) else p) rest) =
          List.find? (fun p => p.1 == k)
            (List.map (fun p => if p.1 == k then (k, v) else p) rest) :=
        List.find?_cons_of_neg _ (by simp [hp])
      rw [hx]
      apply ih
      rw [List.any_cons] at h
      simpa [hp] using h

/-- A key absent from a dictionary is found in the appended binding. -/
theorem find_append_single (k : String) (v : PVal) :
    ∀ d : PyDict, List.find? (fun p => p.1 == k) d = none →
      List.find? (fun p => p.1 == k) (d ++ [(k, v)]) = some (k, v) := by
  intro d
  induction d with
  | nil =>
    intro _
    have hx : List.find? (fun p => p.1 == k) ((k, v) :: []) = some (k, v) :=
      List.find?_cons_of_pos _ (by simp)
    simpa using hx
  | cons p rest ih =>
    intro h
    have hp : ¬ (p.1 == k) = true := by
      intro hc
      have hx : List.find? (fun p => p.1 == k) (p :: rest) = some p :=
        List.find?_cons_of_pos _ hc
      rw [hx] at h
      exact Option.noConfusion h
    have hx : List.find? (fun p => p.1 == k) (p :: rest) =
        List.find? (fun p => p.1 == k) rest :=
      List.find?_cons_of_neg _ hp
    rw [hx] at h
    have hx2 : List.find? (fun p => p.1 == k) (p :: (rest ++ [(k, v)])) =
        List.find? (fun p => p.1 == k) (rest ++ [(k, v)]) :=
      List.find?_cons_of_neg _ hp
    rw [List.cons_append, hx2]
    exact ih h

/-- Looking up the key just stored by a Python dict assignment. -/
theorem pyGet_pySetKey_self (d : PyDict) (k : String) (v : PVal) :
    pyGet (pySetKey d k v) k = some v := by
  unfold pyGet pySetKey
  by_cases h : List.any d (fun p => p.1 == k)
  · rw [if_pos h, find_setKey_any k v d h]
    rfl
  · rw [if_neg h]
    have hnone : List.find? (fun p => p.1 == k) d = none := by
      rw [List.find?_eq_none]
      intro x hx
      rw [Bool.not_eq_true] at h
      exact fun hc => absurd (List.any_eq_true.mpr ⟨x, hx, hc⟩)
        (by rw [h]; exact Bool.false_ne_true)
    rw [find_append_single k v d hnone]
    rfl

/-- Popping one key leaves the bindings of other keys alone. -/
theorem pyGet_pyPop_ne (d : PyDict) (j k : String) (h : k ≠ j) :
    pyGet (pyPop d j) k = pyGet d k := by
  unfold pyGet pyPop
  induction d with
  | nil => rfl
  | cons p rest ih =>
    rw [List.filter_cons]
    by_cases hj : (p.1 != j) = true
    · rw [if_pos hj]
      by_cases hp : (p.1 == k) = true
      · have hx1 : List.find? (fun p => p.1 == k) (p :: List.filter (fun p => p.1 != j) rest) =
            some p :=
          List.find?_cons_of_pos _ hp
        have hx2 : List.find? (fun p => p.1 == k) (p :: rest) = some p :=
          List.find?_cons_of_pos _ hp
        rw [hx1, hx2]
      · have hx1 : List.find? (fun p => p.1 == k) (p :: List.filter (fun p => p.1 != j) rest) =
            List.find? (fun p => p.1 == k) (List.filter (fun p => p.1 != j) rest) :=
          List.find?_cons_of_neg _ hp
        have hx2 : List.find? (fun p => p.1 == k) (p :: rest) =
            List.find? (fun p => p.1 == k) rest :=
          List.find?_cons_of_neg _ hp
        rw [hx1, hx2]
        exact ih
    · rw [if_neg hj]
      have hpj : p.1 = j := by simpa using hj
      have hp : ¬ (p.1 == k) = true := by
        simp only [beq_iff_eq, hpj]
        exact fun hh => h hh.symm
      have hx2 : List.find? (fun p => p.1 == k) (p :: rest) =
          List.find? (fun p => p.1 == k) rest :=
        List.find?_cons_of_neg _ hp
      rw [hx2]
      exact ih

/-- The impact binding written by `_validate_impact` is readable back. -/
theorem validate_impact_get (parsed : PyDict) :
    pyGet (validate_impact parsed) "impact" =
      some (.vint (max (-100) (min 100
        (match (match rawImpact parsed with
                | .vstr s => PVal.vint (labelScore s)
                | r => r) with
         | .vint n => n
         | .vfloat q => ratTruncToInt q
         | .vbool b => if b then 1 else 0
         | _ => 0)))) := by
  unfold validate_impact
  rw [pyGet_pyPop_ne _ _ _ (by decide), pyGet_pySetKey_self]

/-!  ## Theorems  -/

/-- C2: the identifier-to-ticker table loaded at startup is NOT
consulted during normalization: `_poll_once` calls `_parse_entry(entry)`
without the table argument, whose `None` default shadows the loaded
module-level table, so every normalized entry gets the placeholder
ticker `"..."` even when its cik is a key of the loaded table — while
the same entry run through `_parse_entry` with the table passed would
receive the table's value. -/
theorem ticker_table_not_consulted_bug :
    assocGet [("0001234567", "ACME")] "0001234567" = some "ACME" ∧
    (poll_once_normalize [("0001234567", "ACME")]
        [{ tagTerm := some "8-K",
           titleMatch := some ("8-K", "Acme Corp", "0001234567"),
           accessionFromId := some "0001234567-26-000001",
           entryId := "urn:x", link := "https://idx",
           updated := "2026-01-01T00:00:00Z" }]).map (·.ticker) = ["..."] ∧
    (parse_entry
        { tagTerm := some "8-K",
          titleMatch := some ("8-K", "Acme Corp", "0001234567"),
          accessionFromId := some "0001234567-26-000001",
          entryId := "urn:x", link := "https://idx",
          updated := "2026-01-01T00:00:00Z" }
        (some [("0001234567", "ACME")])).map (·.ticker) = some "ACME" ∧
    ("..." : String) ≠ "ACME" := by
  refine ⟨rfl, rfl, rfl, by decide⟩

/-- C3 counterexample: the 13D parser labels a 13D with neither activism
nor passive language "potentially activist", and `pre_classify` scores
those fields +80, not the +60 the claim states, because `"activist" in
strategy` is a substring test that the label passes. -/
theorem whale_potentially_activist_scores_80_cex :
    strategyLabel true false false = "potentially activist" ∧
    pre_classify "whale"
      { form_subtype := some "13D",
        strategy := some (strategyLabel true false false) } = 80 ∧
    pre_classify "whale"
      { form_subtype := some "13D",
        strategy := some (strategyLabel true false false) } ≠ 60 := by
  refine ⟨rfl, rfl, by decide⟩

/-- C3 amended: for segment "whale", `pre_classify` returns +80 when
form_subtype is "13D" and the strategy string CONTAINS "activist" as a
substring — which the labels "activist" and "potentially activist" both
do — +60 when form_subtype is "13D" and the strategy does not contain
"activist" (e.g. the "passive" label), +40 when the subtype is not "13D"
but the ownership percentage exceeds 5, and 0 otherwise; in particular
the fields of a 13D with neither activism nor passive language (label
"potentially activist") score +80, not +60. -/
theorem pre_classify_whale_amended (d : ParsedData) :
    (d.form_subtype = some "13D" →
      strHas "activist".toList (d.strategy.getD "").toList = true →
      pre_classify "whale" d = 80) ∧
    (d.form_subtype = some "13D" →
      strHas "activist".toList (d.strategy.getD "").toList = false →
      pre_classify "whale" d = 60) ∧
    (∀ act pas : Bool, d.form_subtype = some "13D" →
      d.strategy = some (strategyLabel true act pas) →
      pre_classify "whale" d = if act || !pas then 80 else 60) ∧
    (d.form_subtype.getD "" ≠ "13D" → ∀ o : Rat, d.ownership_pct = some o →
      5 < o → pre_classify "whale" d = 40) ∧
    (d.form_subtype.getD "" ≠ "13D" → ∀ o : Rat, d.ownership_pct = some o →
      ¬ 5 < o → pre_classify "whale" d = 0) ∧
    (d.form_subtype.getD "" ≠ "13D" → d.ownership_pct = none →
      pre_classify "whale" d = 0) := by
  refine ⟨?_, ?_, ?_, ?_, ?_, ?_⟩
  · intro hs ha
    simp [pre_classify, hs]
    exact ha
  · intro hs ha
    simp [pre_classify, hs]
    exact ha
  · intro act pas hs hl
    cases act <;> cases pas <;> simp [pre_classify, hs, hl, strategyLabel] <;> decide
  · intro hs o ho h5
    have h0 : o ≠ 0 := by
      intro h
      rw [h] at h5
      norm_num at h5
    simp [pre_classify, hs, ho, h0, h5]
  · intro hs o ho h5
    simp [pre_classify, hs, ho, h5]
  · intro hs ho
    simp [pre_classify, hs, ho]

/-- C3 amended-claim witness at concrete inputs: a potentially-activist
13D scores 80, a passive-labelled 13D scores 60, and a non-13D filing
with 8.5 percent ownership scores 40. -/
theorem pre_classify_whale_amended_witness :
    pre_classify "whale"
      { form_subtype := some "13D", strategy := some "potentially activist" } = 80 ∧
    pre_classify "whale"
      { form_subtype := some "13D", strategy := some "passive" } = 60 ∧
    pre_classify "whale" { ownership_pct := some ((17 : Rat) / 2) } = 40 := by
  refine ⟨?_, ?_, ?_⟩
  · exact (pre_classify_whale_amended _).1 rfl (by decide)
  · exact (pre_classify_whale_amended _).2.1 rfl (by decide)
  · exact (pre_classify_whale_amended _).2.2.2.1 (by decide) _ rfl (by norm_num)

/-- C4: for every segment string and every dictionary of parsed fields
(each field optional, with the type the repository's parsers produce),
`pre_classify` is total — the embedding is a total function — and
returns an integer in [-100, 100]; any segment other than the three
recognized ones yields exactly 0. -/
theorem pre_classify_total_bounded (segment : String) (d : ParsedData) :
    (-100 ≤ pre_classify segment d ∧ pre_classify segment d ≤ 100) ∧
    (segment ≠ "catalyst" → segment ≠ "whale" → segment ≠ "pulse" →
      pre_classify segment d = 0) := by
  constructor
  · by_cases hc : segment = "catalyst"
    · simp only [pre_classify, hc, if_true]
      split_ifs <;> omega
    · by_cases hw : segment = "whale"
      · simp only [pre_classify, hc, hw, if_false, if_true]
        split_ifs <;> first
          | omega
          | (cases d.ownership_pct <;> simp <;> split_ifs <;> omega)
      · by_cases hp : segment = "pulse"
        · simp only [pre_classify, hc, hw, hp, if_false, if_true]
          constructor
          · exact le_max_left _ _
          · exact max_le (by norm_num) (min_le_left _ _)
        · simp [pre_classify, hc, hw, hp]
  · intro hc hw hp
    simp [pre_classify, hc, hw, hp]

/-- C4 witness: an unrecognized segment with empty fields is in range
and scores exactly 0. -/
theorem pre_classify_total_bounded_witness :
    (-100 ≤ pre_classify "insider" {} ∧ pre_classify "insider" {} ≤ 100) ∧
    pre_classify "insider" {} = 0 := by
  have h := pre_classify_total_bounded "insider" {}
  exact ⟨h.1, h.2 (by decide) (by decide) (by decide)⟩

/-- C6 counterexample: the dispatch of `fetch_filing_document` routes
base form "10-K" (and "10-K/A") to the unrecognized-form fallback, not
to the periodic financial-report parser `parse_10q`. -/
theorem route_10K_generic_cex :
    routeParser "10-K" = ParserKind.pGeneric ∧
    routeParser "10-K" ≠ ParserKind.p10q ∧
    routeParser "10-K/A" = ParserKind.pGeneric := by
  refine ⟨rfl, by decide, rfl⟩

/-- C6 amended: parser dispatch uses the base form type (declared type
with a trailing amendment marker stripped) — two form types with the
same base are routed identically — and forms with base "10-Q"
(including "10-Q/A") are parsed by the periodic financial-report parser,
but base form "10-K" falls through to the unrecognized-form fallback. -/
theorem route_dispatch_amended :
    (∀ s t : String,
      (⟨stripL (beforeSlash s.toList)⟩ : String) = ⟨stripL (beforeSlash t.toList)⟩ →
      routeParser s = routeParser t) ∧
    (∀ s : String, (⟨stripL (beforeSlash s.toList)⟩ : String) = "10-Q" →
      routeParser s = ParserKind.p10q) ∧
    (∀ s : String, (⟨stripL (beforeSlash s.toList)⟩ : String) = "10-K" →
      routeParser s = ParserKind.pGeneric) ∧
    routeParser "10-Q/A" = ParserKind.p10q ∧
    routeParser "10-K/A" = ParserKind.pGeneric := by
  refine ⟨?_, ?_, ?_, rfl, rfl⟩
  · intro s t h
    simp only [routeParser, h]
  · intro s h
    simp only [routeParser, h]
    decide
  · intro s h
    simp only [routeParser, h]
    decide

/-- C6 amended-claim witness: "10-Q/A" and "10-Q" share a base form and
route identically, to the periodic parser; "10-K" routes to the
fallback. -/
theorem route_dispatch_amended_witness :
    routeParser "10-Q/A" = routeParser "10-Q" ∧
    routeParser "10-Q/A" = ParserKind.p10q ∧
    routeParser "10-K" = ParserKind.pGeneric := by
  refine ⟨route_dispatch_amended.1 "10-Q/A" "10-Q" (by decide),
    route_dispatch_amended.2.1 "10-Q/A" (by decide),
    route_dispatch_amended.2.2.1 "10-K" (by decide)⟩

/-- C7 counterexample: on the candidate list `["R1.htm", "a.xml"]` no
`.htm/.html` link survives the artifact filters, and the claim says the
first surviving `.xml` link (`"a.xml"`) is selected — but the code's
fallback loop only re-checks the XSLT filter, so it returns the
exhibit-viewer artifact `"R1.htm"`. -/
theorem pickBest_xml_fallback_cex :
    pickBest ["R1.htm", "a.xml"] = some "R1.htm" ∧
    pickBestSpec ["R1.htm", "a.xml"] = some "a.xml" ∧
    pickBest ["R1.htm", "a.xml"] ≠ some "a.xml" := by
  refine ⟨rfl, rfl, by decide⟩

/-- C7 amended: `pickBest` selects, in order, the first `.htm/.html`
link that passes the rendered-view artifact filters; when no such link
exists, the first link — of any extension, with only the XSLT filter
re-applied — without an XSLT path segment; and when every candidate has
an XSLT segment, the first candidate link, unfiltered.  A nonempty
candidate list always yields one of its own links. -/
theorem pickBest_amended (links : List String) :
    (∀ b, links.find? htmCandidate = some b → pickBest links = some b) ∧
    ((∀ l ∈ links, htmCandidate l = false) →
      ∀ b, links.find? (fun l => !(hasXslSegment l)) = some b →
        pickBest links = some b) ∧
    ((∀ l ∈ links, htmCandidate l = false) →
      (∀ l ∈ links, hasXslSegment l = true) → pickBest links = links.head?) ∧
    (∀ b, pickBest links = some b → b ∈ links) := by
  refine ⟨?_, ?_, ?_, ?_⟩
  · intro b hb
    simp [pickBest, hb]
  · intro hhtm b hb
    have h1 : links.find? htmCandidate = none := by
      rw [List.find?_eq_none]
      intro l hl
      simp [hhtm l hl]
    simp [pickBest, h1, hb]
  · intro hhtm hxsl
    have h1 : links.find? htmCandidate = none := by
      rw [List.find?_eq_none]
      intro l hl
      simp [hhtm l hl]
    have h2 : links.find? (fun l => !(hasXslSegment l)) = none := by
      rw [List.find?_eq_none]
      intro l hl
      simp [hxsl l hl]
    simp [pickBest, h1, h2]
  · intro b hb
    unfold pickBest at hb
    rcases h1 : links.find? htmCandidate with _ | c
    · rcases h2 : links.find? (fun l => !(hasXslSegment l)) with _ | c2
      · rw [h1, h2] at hb
        simp at hb
        exact List.mem_of_mem_head? (by rw [hb]; rfl)
      · rw [h1, h2] at hb
        simp at hb
        subst hb
        exact List.mem_of_find?_eq_some h2
    · rw [h1] at hb
      simp at hb
      subst hb
      exact List.mem_of_find?_eq_some h1

/-- C7 amended-claim witness on concrete candidate lists: a clean
`.htm` wins over an earlier `.xml`; with only artifacts and an `.xml`,
the first non-XSLT link wins; with only XSLT links, the head is
returned. -/
theorem pickBest_amended_witness :
    pickBest ["a.xml", "doc.htm"] = some "doc.htm" ∧
    pickBest ["R1.htm", "a.xml"] = some "R1.htm" ∧
    pickBest ["a/xslt/x.xml"] = some "a/xslt/x.xml" := by
  refine ⟨(pickBest_amended _).1 _ (by decide),
    (pickBest_amended _).2.1 (by decide) _ (by decide), ?_⟩
  have h := (pickBest_amended ["a/xslt/x.xml"]).2.2.1 (by decide) (by decide)
  simpa using h

/-- C8: for every input text, the 8-K parser's items list is
duplicate-free and sorted ascending in the byte-wise string order, and
the bullish/bearish flags hold exactly when the codes matched in the
text intersect the fixed bullish/bearish code sets; on a text containing
"Item 1.01" and "Item 9.01" the items are `["1.01", "9.01"]` with the
bullish flag set and the bearish flag clear. -/
theorem parse_8k_spec (text : List Char) :
    (parse_8k text).items.Nodup ∧
    List.Sorted strLe (parse_8k text).items ∧
    ((parse_8k text).has_bullish_items = true ↔
      ∃ c ∈ scanItems text, c ∈ BULLISH_ITEMS) ∧
    ((parse_8k text).has_bearish_items = true ↔
      ∃ c ∈ scanItems text, c ∈ BEARISH_ITEMS) ∧
    ((parse_8k "Item 1.01 Entry into agreement. Item 9.01 Financial statements.".toList).items
        = ["1.01", "9.01"] ∧
      (parse_8k "Item 1.01 Entry into agreement. Item 9.01 Financial statements.".toList).has_bullish_items
        = true ∧
      (parse_8k "Item 1.01 Entry into agreement. Item 9.01 Financial statements.".toList).has_bearish_items
        = false) := by
  have hmem : ∀ c : String,
      c ∈ List.insertionSort strLe (scanItems text).dedup ↔ c ∈ scanItems text := by
    intro c
    rw [(List.perm_insertionSort strLe _).mem_iff, List.mem_dedup]
  refine ⟨?_, ?_, ?_, ?_, by decide, by decide, by decide⟩
  · show (List.insertionSort strLe (scanItems text).dedup).Nodup
    exact (List.perm_insertionSort strLe _).nodup_iff.mpr (List.nodup_dedup _)
  · exact List.sorted_insertionSort strLe _
  · show (List.insertionSort strLe (scanItems text).dedup).any
        (fun c => BULLISH_ITEMS.contains c) = true ↔ _
    rw [List.any_eq_true]
    constructor
    · rintro ⟨c, hc, hb⟩
      exact ⟨c, (hmem c).mp hc, by simpa using hb⟩
    · rintro ⟨c, hc, hb⟩
      exact ⟨c, (hmem c).mpr hc, by simpa using hb⟩
  · show (List.insertionSort strLe (scanItems text).dedup).any
        (fun c => BEARISH_ITEMS.contains c) = true ↔ _
    rw [List.any_eq_true]
    constructor
    · rintro ⟨c, hc, hb⟩
      exact ⟨c, (hmem c).mp hc, by simpa using hb⟩
    · rintro ⟨c, hc, hb⟩
      exact ⟨c, (hmem c).mpr hc, by simpa using hb⟩

/-- C5: for every parsed generative-classifier response dictionary the
validated impact is an integer in [-100, 100]; a legacy textual label is
mapped through the fixed label table (bullish 60, bearish -60, neutral
0, anything else 0), an integer or float value is coerced to an integer
(floats truncate toward zero) and clamped, and a missing or
non-coercible value becomes 0. -/
theorem validate_impact_spec (parsed : PyDict) :
    (∃ n : Int, pyGet (validate_impact parsed) "impact" = some (.vint n) ∧
      -100 ≤ n ∧ n ≤ 100) ∧
    (∀ s : String, rawImpact parsed = .vstr s →
      pyGet (validate_impact parsed) "impact" = some (.vint (labelScore s))) ∧
    (labelScore "bullish" = 60 ∧ labelScore "bearish" = -60 ∧
      labelScore "neutral" = 0) ∧
    (∀ n : Int, rawImpact parsed = .vint n →
      pyGet (validate_impact parsed) "impact" =
        some (.vint (max (-100) (min 100 n)))) ∧
    (∀ q : Rat, rawImpact parsed = .vfloat q →
      pyGet (validate_impact parsed) "impact" =
        some (.vint (max (-100) (min 100 (ratTruncToInt q))))) ∧
    (rawImpact parsed = .vnull →
      pyGet (validate_impact parsed) "impact" = some (.vint 0)) ∧
    (pyGet parsed "impact" = none → pyGet parsed "signal" = none →
      pyGet (validate_impact parsed) "impact" = some (.vint 0)) := by
  refine ⟨?_, ?_, ⟨by decide, by decide, by decide⟩, ?_, ?_, ?_, ?_⟩
  · refine ⟨_, validate_impact_get parsed, ?_, ?_⟩
    · exact le_max_left _ _
    · exact max_le (by norm_num) (min_le_left _ _)
  · intro s hs
    rw [validate_impact_get parsed, hs]
    have hred : (match (match PVal.vstr s with
        | PVal.vstr s => PVal.vint (labelScore s)
        | r => r) with
      | PVal.vint n => n
      | PVal.vfloat q => ratTruncToInt q
      | PVal.vbool b => if b then 1 else 0
      | _ => 0) = labelScore s := rfl
    rw [hred]
    rcases labelScore_cases s with h | h | h <;> rw [h] <;> norm_num
  · intro n hn
    rw [validate_impact_get parsed, hn]
  · intro q hq
    rw [validate_impact_get parsed, hq]
  · intro hnull
    rw [validate_impact_get parsed, hnull]
    norm_num
  · intro h1 h2
    have hraw : rawImpact parsed = .vint 0 := by
      unfold rawImpact
      rw [h1, h2]
      rfl
    rw [validate_impact_get parsed, hraw]
    norm_num

/-- C5 witness at concrete response dictionaries: a legacy label, an
out-of-range integer, a float, a null, a legacy `signal` key, and an
empty dictionary. -/
theorem validate_impact_spec_witness :
    pyGet (validate_impact [("impact", .vstr "bullish")]) "impact" =
      some (.vint (labelScore "bullish")) ∧
    labelScore "bullish" = 60 ∧
    pyGet (validate_impact [("impact", .vint 250)]) "impact" =
      some (.vint (max (-100) (min 100 (250 : Int)))) ∧
    pyGet (validate_impact [("impact", .vfloat ((-5 : Rat) / 2))]) "impact" =
      some (.vint (max (-100) (min 100 (ratTruncToInt ((-5 : Rat) / 2))))) ∧
    pyGet (validate_impact [("impact", .vnull)]) "impact" = some (.vint 0) ∧
    pyGet (validate_impact [("signal", .vint (-130))]) "impact" =
      some (.vint (max (-100) (min 100 (-130 : Int)))) ∧
    pyGet (validate_impact ([] : PyDict)) "impact" = some (.vint 0) := by
  refine ⟨(validate_impact_spec _).2.1 "bullish" rfl,
    (validate_impact_spec [("impact", .vstr "bullish")]).2.2.1.1,
    (validate_impact_spec _).2.2.2.1 250 rfl,
    (validate_impact_spec _).2.2.2.2.1 ((-5 : Rat) / 2) ?_,
    (validate_impact_spec _).2.2.2.2.2.1 rfl,
    (validate_impact_spec _).2.2.2.1 (-130) rfl,
    (validate_impact_spec _).2.2.2.2.2.2 rfl rfl⟩
  show rawImpact [("impact", .vfloat ((-5 : Rat) / 2))] = .vfloat ((-5 : Rat) / 2)
  rfl

/-- C9: whenever all three JSON-extraction strategies fail on a
generative-service reply, `_parse_response` returns — it is total, never
raising — the safe synthetic dictionary: the stripped reply truncated to
300 characters as summary, impact 0, and the fixed could-not-parse
reason. -/
theorem parse_response_fallback (attemptDirect attemptFenced attemptAnchor : String → Option PyDict)
    (text : String)
    (h1 : attemptDirect (stripStr text) = none)
    (h2 : attemptFenced (stripStr text) = none)
    (h3 : attemptAnchor (stripStr text) = none) :
    parse_response attemptDirect attemptFenced attemptAnchor text =
      [("summary", .vstr (strTake 300 (stripStr text))),
       ("impact", .vint 0),
       ("reasons", .vlist [.vstr couldNotParseReason])] := by
  simp only [parse_response, h1, h2, h3]

/-- C9 witness: three always-failing extraction attempts on a plain
prose reply produce exactly the synthetic fallback dictionary. -/
theorem parse_response_fallback_witness :
    parse_response (fun _ => none) (fun _ => none) (fun _ => none)
        "  plain prose, not a structured reply  " =
      [("summary", .vstr (strTake 300 (stripStr "  plain prose, not a structured reply  "))),
       ("impact", .vint 0),
       ("reasons", .vlist [.vstr couldNotParseReason])] :=
  parse_response_fallback _ _ _ _ rfl rfl rfl

/-- C1 counterexample: a batch holding the same accession number twice
is deduplicated by KEEPING THE FIRST occurrence, not the last: the
returned entry is the first one, which differs from the last one. -/
theorem dedup_keeps_first_occurrence_cex :
    (dedupStep [] [mkEntry "A" "First Corp", mkEntry "A" "Second Corp"]).1 =
      [mkEntry "A" "First Corp"] ∧
    mkEntry "A" "First Corp" ≠ mkEntry "A" "Second Corp" ∧
    (dedupStep [] [mkEntry "A" "First Corp", mkEntry "A" "Second Corp"]).1 ≠
      [mkEntry "A" "Second Corp"] := by
  refine ⟨rfl, by decide, by decide⟩

/-- C1 amended: `_dedup` returns each accession number at most once,
keeping the FIRST occurrence among in-batch duplicates (first-seen-wins
— the id set is unaffected by which occurrence is kept); it returns
exactly the batch accession numbers not already in the persisted
ledger, appends every returned id to the ledger before returning, and a
second call with overlapping ids returns only ids absent from the first
call's result. -/
theorem dedup_reserve_new_amended (ledger : List String) (entries : List Entry) :
    ((dedupStep ledger entries).1.map (·.accession_number)).Nodup ∧
    (∀ a : String, a ∈ (dedupStep ledger entries).1.map (·.accession_number) ↔
      a ∈ entries.map (·.accession_number) ∧ a ∉ ledger) ∧
    (∀ e ∈ (dedupStep ledger entries).1,
      entries.find? (fun x => x.accession_number == e.accession_number) = some e) ∧
    (dedupStep ledger entries).2 =
      ledger ++ (dedupStep ledger entries).1.map (·.accession_number) ∧
    (∀ e ∈ (dedupStep ledger entries).1,
      e.accession_number ∈ (dedupStep ledger entries).2) ∧
    (∀ entries2 : List Entry, ∀ a : String,
      a ∈ (dedupStep (dedupStep ledger entries).2 entries2).1.map (·.accession_number) →
      a ∉ (dedupStep ledger entries).1.map (·.accession_number)) := by
  refine ⟨?_, fun a => dedupStep_mem_acc ledger entries a,
    dedupStep_first ledger entries, dedupStep_ledger ledger entries, ?_, ?_⟩
  · unfold dedupStep
    by_cases hne : entries.isEmpty
    · rw [if_pos hne]
      simp
    · rw [if_neg hne]
      exact List.Nodup.sublist ((List.filter_sublist _).map _)
        (uniqueByAccAux_nodup [] entries)
  · intro e he
    rw [dedupStep_ledger ledger entries]
    exact List.mem_append_right _ (List.mem_map_of_mem _ he)
  · intro entries2 a ha hmem
    have h2 := (dedupStep_mem_acc (dedupStep ledger entries).2 entries2 a).mp ha
    refine h2.2 ?_
    rw [dedupStep_ledger ledger entries]
    exact List.mem_append_right _ hmem

/-- C1 amended-claim witness on a concrete ledger and batch with an
in-batch duplicate and one already-seen id. -/
theorem dedup_reserve_new_amended_witness :
    "A" ∈ (dedupStep ["X"] [mkEntry "A" "n1", mkEntry "A" "n2", mkEntry "X" "n3"]).1.map
        (·.accession_number) ∧
    [mkEntry "A" "n1", mkEntry "A" "n2", mkEntry "X" "n3"].find?
        (fun x => x.accession_number == (mkEntry "A" "n1").accession_number) =
      some (mkEntry "A" "n1") ∧
    (mkEntry "A" "n1").accession_number ∈
      (dedupStep ["X"] [mkEntry "A" "n1", mkEntry "A" "n2", mkEntry "X" "n3"]).2 ∧
    "B" ∉ (dedupStep ["X"] [mkEntry "A" "n1", mkEntry "A" "n2", mkEntry "X" "n3"]).1.map
        (·.accession_number) := by
  have h := dedup_reserve_new_amended ["X"]
    [mkEntry "A" "n1", mkEntry "A" "n2", mkEntry "X" "n3"]
  exact ⟨(h.2.1 "A").mpr ⟨by decide, by decide⟩,
    h.2.2.1 _ (by decide),
    h.2.2.2.2.1 _ (by decide),
    h.2.2.2.2.2 [mkEntry "B" "x"] "B" (by decide)⟩

/-- C10: when the fetch of a filing resolves to no document or the
download fails (both surface as empty text), `_process_filing` returns
with no row persisted and no event broadcast; a whole cycle of such
failures changes nothing but the dedup ledger — to which `_dedup` had
already added the accession number — so the filing is excluded from
every later poll's dedup result and is never retried. -/
theorem fetch_failure_never_retried (st : PipeState) (e : Entry) (B B2 : List Entry)
    (he : e ∈ (dedupStep st.seenLedger B).1) :
    process_filing st e "" = st ∧
    runCycle st B (fun _ => "") =
      { st with seenLedger := (dedupStep st.seenLedger B).2 } ∧
    e.accession_number ∈ (runCycle st B (fun _ => "")).seenLedger ∧
    e.accession_number ∉
      (dedupStep (runCycle st B (fun _ => "")).seenLedger B2).1.map
        (·.accession_number) := by
  have hcycle : runCycle st B (fun _ => "") =
      { st with seenLedger := (dedupStep st.seenLedger B).2 } := by
    unfold runCycle
    rcases hd : dedupStep st.seenLedger B with ⟨news, L⟩
    exact foldl_process_empty news _
  have hin : e.accession_number ∈ (dedupStep st.seenLedger B).2 := by
    rw [dedupStep_ledger]
    exact List.mem_append_right _ (List.mem_map_of_mem _ he)
  refine ⟨process_filing_empty st e, hcycle, ?_, ?_⟩
  · rw [hcycle]
    exact hin
  · rw [hcycle]
    intro hmem
    exact ((dedupStep_mem_acc _ B2 _).mp hmem).2 hin

/-- C10 witness: one entry, fetch always failing, across two cycles. -/
theorem fetch_failure_never_retried_witness :
    process_filing ⟨[], [], []⟩ (mkEntry "C" "co") "" = ⟨[], [], []⟩ ∧
    runCycle ⟨[], [], []⟩ [mkEntry "C" "co"] (fun _ => "") =
      { seenLedger := (dedupStep [] [mkEntry "C" "co"]).2, filingRows := [],
        broadcasts := [] } ∧
    (mkEntry "C" "co").accession_number ∈
      (runCycle ⟨[], [], []⟩ [mkEntry "C" "co"] (fun _ => "")).seenLedger ∧
    (mkEntry "C" "co").accession_number ∉
      (dedupStep (runCycle ⟨[], [], []⟩ [mkEntry "C" "co"] (fun _ => "")).seenLedger
        [mkEntry "C" "co"]).1.map (·.accession_number) :=
  fetch_failure_never_retried ⟨[], [], []⟩ (mkEntry "C" "co")
    [mkEntry "C" "co"] [mkEntry "C" "co"] (by decide)

end SecDash
